import Mathlib

/-!
Verification of the KNN-style recommendation script
(`scripts/short-term-favorites.ipynb`): the feature-encoding helpers
(`add_genres`, `genres_indexed`, `artists_indexed`), the distance
functions (`list_distance`, `ComputeDistance`), the brute-force
neighbour search (`getNeighbors`), and the HTTP handling of
`get_song_genres` during playlist loading.

Python floats are modelled as rationals (the literals 0.4, 0.2, 0.005
are exact), Python ints as `Int`/`Nat`, Python lists as `List`, dicts
as insertion-ordered association lists, and the fallible parts
(`IndexError` on list indexing, `NameError` on an unbound local) by
`Option`/`Except`.
-/

namespace SpotifyKNN

/-- A song record as assembled by `knn_prepared_data`: the columns
`id`, `name`, `genres`, `artists`, `popularity` of the playlist frame
together with the derived binary vectors `genres_indexed` and
`artists_indexed`. -/
structure Song where
  id : String
  name : String
  genres : List String
  artists : List String
  popularity : Int
  genres_indexed : List Nat
  artists_indexed : List Nat
deriving DecidableEq, Repr

/-- The inner loop shared by `genres_indexed` and `artists_indexed`:
scan the song's list for the vocabulary word `vocabWord`; append
`int(True) = 1` on the first match (then `break`), append
`int(False) = 0` when the scan finds no match. -/
def indexedEntry (vocabWord : String) : List String → Nat
  | [] => 0
  | g :: rest => if vocabWord = g then 1 else indexedEntry vocabWord rest

/-- `genres_indexed(genres)`: one entry per word of the global
vocabulary `all_genres` (a Python global, here an explicit first
argument), 1 when the word occurs in `genres` and 0 otherwise. -/
def genres_indexed (all_genres : List String) (genres : List String) : List Nat :=
  all_genres.map (fun all_genres_x => indexedEntry all_genres_x genres)

/-- `artists_indexed(artists)`: the same construction over the global
vocabulary `all_artists`. -/
def artists_indexed (all_artists : List String) (artists : List String) : List Nat :=
  all_artists.map (fun all_artists_x => indexedEntry all_artists_x artists)

/-- `add_genres(list, genres)`: append to `list` each element of
`genres` not already present, in loop order, and return the list. -/
def add_genres (l : List String) : List String → List String
  | [] => l
  | genre :: rest =>
    if genre ∈ l then add_genres l rest
    else add_genres (l ++ [genre]) rest

/-- The elements appended by `add_genres l`: the elements of the
second argument not already in `l`, first occurrences only, in order
of first appearance. -/
def newGenres (l : List String) : List String → List String
  | [] => []
  | genre :: rest =>
    if genre ∈ l then newGenres l rest
    else genre :: newGenres (l ++ [genre]) rest

/-- The accumulator loop of `list_distance` over the zipped pairs:
on a differing pair add 0.4 when the first component is 1 and 0.2
otherwise; on an equal pair subtract 0.4 when the first component
is 1. -/
def distFold : ℚ → List (Nat × Nat) → ℚ
  | distance, [] => distance
  | distance, (item_a, item_b) :: rest =>
    if item_a ≠ item_b then
      if item_a = 1 then distFold (distance + 0.4) rest
      else distFold (distance + 0.2) rest
    else
      if item_a = 1 then distFold (distance - 0.4) rest
      else distFold distance rest

/-- `list_distance(a, b)` of the notebook: fold the scoring loop over
`zip(a, b)` starting from 0. -/
def list_distance (a b : List Nat) : ℚ := distFold 0 (a.zip b)

/-- `ComputeDistance(a, b)`: genre distance plus 0.4 times artist
distance plus 0.005 times the absolute popularity difference. -/
def ComputeDistance (a b : Song) : ℚ :=
  let genres_distance := list_distance a.genres_indexed b.genres_indexed
  let artists_distance := list_distance a.artists_indexed b.artists_indexed
  let popularity_distance : ℚ := ((a.popularity - b.popularity).natAbs : ℚ)
  genres_distance + artists_distance * 0.4 + (popularity_distance * 0.005)

/-- The per-position contribution of the `distFold` branch structure,
read off the code: on a differing pair 0.4 when the first component
is 1 and 0.2 otherwise, on an equal pair minus 0.4 when the first
component is 1 and 0 otherwise. -/
def codeContribution (x y : Nat) : ℚ :=
  if x ≠ y then
    if x = 1 then 0.4 else 0.2
  else
    if x = 1 then -0.4 else 0

/-- The per-position contribution of `list_distance` as the claim
states it: 0.4 where the first vector has 1 and the second 0, 0.2
where the first has 0 and the second 1, and minus 0.4 where both
have 1. -/
def specContribution (x y : Nat) : ℚ :=
  if x = 1 ∧ y = 0 then 0.4
  else if x = 0 ∧ y = 1 then 0.2
  else if x = 1 ∧ y = 1 then -0.4
  else 0

/-- The claim's reading of `list_distance`: the sum of the
per-position contributions over the zipped vectors. -/
def specListDistance (a b : List Nat) : ℚ :=
  ((a.zip b).map (fun p => specContribution p.1 p.2)).sum

/-- The distance-collecting loop of `getNeighbors`, with the base
song already fetched: for each `(song_index, song_value)` with
`song_index != song`, record `(song_index, ComputeDistance base
song_value)`. -/
def pairDistances (base : Song) (song : Nat) : Nat → List Song → List (Nat × ℚ)
  | _, [] => []
  | i, v :: rest =>
    if i ≠ song then (i, ComputeDistance base v) :: pairDistances base song (i + 1) rest
    else pairDistances base song (i + 1) rest

/-- The same loop with the `song_dict[song]` lookup performed inside
each iteration, as in the source: indexing out of range raises, so
the result is `none` whenever an iteration with `song_index != song`
is reached and `song` is not a valid index. -/
def distLoop (dict : List Song) (song : Nat) : Nat → List Song → Option (List (Nat × ℚ))
  | _, [] => some []
  | i, v :: rest =>
    if i ≠ song then
      match dict.get? song with
      | none => none
      | some base =>
        (distLoop dict song (i + 1) rest).map
          (fun tail => (i, ComputeDistance base v) :: tail)
    else distLoop dict song (i + 1) rest

/-- Stable insertion of a pair into a list sorted by the second
component: the new element goes after every element whose distance
is at most its own. -/
def insertSorted : List (Nat × ℚ) → (Nat × ℚ) → List (Nat × ℚ)
  | [], x => [x]
  | y :: rest, x =>
    if y.2 ≤ x.2 then y :: insertSorted rest x
    else x :: y :: rest

/-- `distances.sort(key=operator.itemgetter(1))`: the stable
ascending sort by the distance component, realised as left-to-right
stable insertion (stable ascending sorting determines the output
uniquely). -/
def sortByDist (l : List (Nat × ℚ)) : List (Nat × ℚ) :=
  l.foldl insertSorted []

/-- The final loop of `getNeighbors`: `for x in range(K):
neighbors.append([*distances[x]])`; indexing past the end raises, so
the result is `none` when `K` exceeds the list length. -/
def takeIndexed (l : List (Nat × ℚ)) : Nat → Option (List (Nat × ℚ))
  | 0 => some []
  | K + 1 =>
    match takeIndexed l K, l.get? K with
    | some acc, some v => some (acc ++ [v])
    | _, _ => none

/-- `getNeighbors(song, K)` over an explicit `song_dict`: collect the
distances to every entry with a different index, sort ascending by
distance, and read off the first `K` entries by indexing. -/
def getNeighbors (dict : List Song) (song K : Nat) : Option (List (Nat × ℚ)) :=
  match distLoop dict song 0 dict with
  | none => none
  | some distances => takeIndexed (sortByDist distances) K

/-- The property `getNeighbors` is claimed to satisfy for a valid
base index and `1 ≤ K ≤ n - 1`: the call succeeds, returns `K`
pairs, none of them carrying the base index, all indices in range,
distances non-decreasing, the collected distance list has exactly
`n - 1` entries and contains the distance to every other song, and
the returned pairs are `K` smallest among them. -/
def NeighborsSpec (dict : List Song) (s K : Nat) : Prop :=
  ∃ base res, dict.get? s = some base ∧ getNeighbors dict s K = some res ∧
    res.length = K ∧
    (∀ p ∈ res, p.1 ≠ s ∧ p.1 < dict.length) ∧
    List.Pairwise (fun p q : Nat × ℚ => p.2 ≤ q.2) res ∧
    (pairDistances base s 0 dict).length = dict.length - 1 ∧
    (∀ j, j < dict.length → j ≠ s →
      ∃ v, dict.get? j = some v ∧ (j, ComputeDistance base v) ∈ pairDistances base s 0 dict) ∧
    ∃ rest, List.Perm (res ++ rest) (pairDistances base s 0 dict) ∧
      ∀ p ∈ res, ∀ q ∈ rest, p.2 ≤ q.2

/-- An artist reference inside a song record: the `id` used for the
cache check and the HTTP request, and the `name` used as the cache
key when storing. -/
structure ArtistRef where
  id : String
  name : String
deriving DecidableEq, Repr

/-- A parsed artist-endpoint HTTP response: the status code and the
outcome of reading the `genres` field of the JSON body (`none` when
the access raises, as for a 429 error body). -/
structure ArtistResponse where
  status : Nat
  genres : Option (List String)
deriving DecidableEq, Repr

/-- The uncaught Python error that can escape `get_song_genres`:
using the local `artist_genres` before any assignment to it. -/
inductive PyError where
  | nameError
deriving DecidableEq, Repr

/-- Lookup in an insertion-ordered association list, the model of a
Python dict read. -/
def lookupDict (d : List (String × List String)) (k : String) : Option (List String) :=
  match d with
  | [] => none
  | (k', v) :: rest => if k = k' then some v else lookupDict rest k

/-- Write through an insertion-ordered association list, the model of
a Python dict assignment: overwrite in place or append at the end. -/
def dictInsert (d : List (String × List String)) (k : String) (v : List String) :
    List (String × List String) :=
  match d with
  | [] => [(k, v)]
  | (k', v') :: rest =>
    if k = k' then (k, v) :: rest else (k', v') :: dictInsert rest k v

/-- The artist loop of `get_song_genres`, over a network oracle
mapping an artist id to its HTTP response. State: the accumulated
`genres`, the global `artists` cache, the local variable
`artist_genres` (`none` while still unbound), and the log of issued
request ids. A cached id skips the request; otherwise one request is
issued and its `genres` field parsed; on a parse failure the
exception is caught (the body printed) and execution falls through to
`add_genres(genres, artist_genres)` with the stale value of
`artist_genres`, raising `NameError` when it was never assigned. -/
def get_song_genres_loop (network : String → ArtistResponse) :
    List ArtistRef → List String → List (String × List String) →
    Option (List String) → List String →
    Except PyError (List String × List (String × List String)) × List String
  | [], genres, artistsDict, _, log => (.ok (genres, artistsDict), log)
  | artist :: rest, genres, artistsDict, artist_genres, log =>
    match lookupDict artistsDict artist.id with
    | some cached =>
      get_song_genres_loop network rest (add_genres genres cached) artistsDict artist_genres log
    | none =>
      match (network artist.id).genres with
      | some artist_genres' =>
        get_song_genres_loop network rest (add_genres genres artist_genres')
          (dictInsert artistsDict artist.name artist_genres') (some artist_genres')
          (log ++ [artist.id])
      | none =>
        match artist_genres with
        | some stale =>
          get_song_genres_loop network rest (add_genres genres stale)
            (dictInsert artistsDict artist.name stale) (some stale) (log ++ [artist.id])
        | none => (.error .nameError, log ++ [artist.id])

/-- `get_song_genres(song)` over the song's artist list: start from
empty `genres`, the current `artists` cache, an unbound
`artist_genres`, and an empty request log. -/
def get_song_genres (network : String → ArtistResponse)
    (song_artists : List ArtistRef) (artistsDict : List (String × List String)) :
    Except PyError (List String × List (String × List String)) × List String :=
  get_song_genres_loop network song_artists [] artistsDict none []

/-- A network on which every artist request is rate limited: status
429 and an error body without a `genres` field. -/
def rateLimitedNet : String → ArtistResponse := fun _ => ⟨429, none⟩

/-- A network answering artist `a0` normally and rate-limiting every
other request. -/
def mixedNet : String → ArtistResponse := fun id =>
  if id = "a0" then ⟨200, some ["rock"]⟩ else ⟨429, none⟩

/-- A healthy network with the same parse outcomes as
`rateLimitedNet` but status 200 everywhere. -/
def okStatusNet : String → ArtistResponse := fun _ => ⟨200, none⟩

/-- A two-artist request list used on concrete runs. -/
def twoArtists : List ArtistRef := [⟨"a0", "A0"⟩, ⟨"a1", "A1"⟩]

/-- A one-artist request list used on concrete runs. -/
def oneArtist : List ArtistRef := [⟨"a1", "A1"⟩]

/-- A concrete three-song dictionary used to instantiate the neighbour
search theorems. -/
def demoDict : List Song :=
  [⟨"i0", "s0", ["rock"], ["A"], 10, [1, 0], [1]⟩,
   ⟨"i1", "s1", ["pop"], ["B"], 20, [0, 1], [0]⟩,
   ⟨"i2", "s2", ["rock", "pop"], ["A"], 30, [1, 1], [1]⟩]

/-- A concrete song used to instantiate the self-distance theorem. -/
def demoSong : Song := ⟨"i0", "s0", ["rock"], ["A"], 10, [1, 0], [0]⟩

/-- A second concrete song, paired with `demoSong` in witnesses. -/
def demoSongB : Song := ⟨"i1", "s1", ["pop"], ["B"], 25, [0, 1], [1]⟩

/-- A copy of `demoSong` that differs only in the fields the distance
does not read. -/
def demoSongRenamed : Song := ⟨"other-id", "other-name", [], [], 10, [1, 0], [0]⟩

/-! ### Characterisation of the accumulator loop of `list_distance` -/

lemma distFold_shift (l : List (Nat × Nat)) : ∀ d : ℚ, distFold d l = d + distFold 0 l := by
  induction l with
  | nil => intro d; simp [distFold]
  | cons p rest ih =>
    intro d
    rcases p with ⟨x, y⟩
    simp only [distFold]
    split_ifs
    all_goals rw [ih]
    all_goals conv_rhs => rw [ih]
    all_goals ring

lemma distFold_cons (x y : Nat) (rest : List (Nat × Nat)) :
    distFold 0 ((x, y) :: rest) = codeContribution x y + distFold 0 rest := by
  simp only [distFold, codeContribution]
  split_ifs
  all_goals rw [distFold_shift]
  all_goals ring

lemma distFold_eq_sum (l : List (Nat × Nat)) :
    distFold 0 l = (l.map fun p => codeContribution p.1 p.2).sum := by
  induction l with
  | nil => simp [distFold]
  | cons p rest ih =>
    rcases p with ⟨x, y⟩
    rw [distFold_cons, ih, List.map_cons, List.sum_cons]

lemma list_distance_eq_sum (a b : List Nat) :
    list_distance a b = ((a.zip b).map fun p => codeContribution p.1 p.2).sum :=
  distFold_eq_sum (a.zip b)

lemma codeContribution_eq_spec (x y : Nat) (hx : x = 0 ∨ x = 1) (hy : y = 0 ∨ y = 1) :
    codeContribution x y = specContribution x y := by
  rcases hx with hx | hx <;> rcases hy with hy | hy <;>
    subst hx <;> subst hy <;> simp [codeContribution, specContribution]

lemma list_distance_eq_specListDistance (a b : List Nat)
    (hA : ∀ x ∈ a, x = 0 ∨ x = 1) (hB : ∀ x ∈ b, x = 0 ∨ x = 1) :
    list_distance a b = specListDistance a b := by
  rw [list_distance_eq_sum, specListDistance]
  congr 1
  refine List.map_congr_left fun p hp => ?_
  have hmem := List.of_mem_zip (a := p.1) (b := p.2) (by simpa using hp)
  exact codeContribution_eq_spec p.1 p.2 (hA p.1 hmem.1) (hB p.2 hmem.2)

/-- C1: for songs with equal-length binary indexed vectors,
`ComputeDistance` is the claim's weighted sum: the positionwise
genre score (0.4 per 1/0 position, 0.2 per 0/1 position, minus 0.4
per 1/1 position), plus 0.4 times the same score on the artist
vectors, plus 0.005 times the absolute popularity difference. -/
theorem ComputeDistance_formula (a b : Song)
    (hlg : a.genres_indexed.length = b.genres_indexed.length)
    (hla : a.artists_indexed.length = b.artists_indexed.length)
    (hga : ∀ x ∈ a.genres_indexed, x = 0 ∨ x = 1)
    (hgb : ∀ x ∈ b.genres_indexed, x = 0 ∨ x = 1)
    (haa : ∀ x ∈ a.artists_indexed, x = 0 ∨ x = 1)
    (hab : ∀ x ∈ b.artists_indexed, x = 0 ∨ x = 1) :
    ComputeDistance a b =
      specListDistance a.genres_indexed b.genres_indexed
        + 0.4 * specListDistance a.artists_indexed b.artists_indexed
        + 0.005 * ((a.popularity - b.popularity).natAbs : ℚ) := by
  rw [ComputeDistance, list_distance_eq_specListDistance _ _ hga hgb,
    list_distance_eq_specListDistance _ _ haa hab]
  ring

/-- Witness for C1 at two concrete songs. -/
theorem ComputeDistance_formula_witness :
    ComputeDistance demoSong demoSongB =
      specListDistance demoSong.genres_indexed demoSongB.genres_indexed
        + 0.4 * specListDistance demoSong.artists_indexed demoSongB.artists_indexed
        + 0.005 * ((demoSong.popularity - demoSongB.popularity).natAbs : ℚ) :=
  ComputeDistance_formula demoSong demoSongB (by decide) (by decide)
    (by decide) (by decide) (by decide) (by decide)

lemma sum_code_eq_counts (l : List (Nat × Nat))
    (hb : ∀ p ∈ l, (p.1 = 0 ∨ p.1 = 1) ∧ (p.2 = 0 ∨ p.2 = 1)) :
    (l.map fun p => codeContribution p.1 p.2).sum =
      0.4 * ((l.countP fun p => decide (p.1 = 1) && decide (p.2 = 0)) : ℚ)
        + 0.2 * ((l.countP fun p => decide (p.1 = 0) && decide (p.2 = 1)) : ℚ)
        - 0.4 * ((l.countP fun p => decide (p.1 = 1) && decide (p.2 = 1)) : ℚ) := by
  induction l with
  | nil => simp
  | cons p rest ih =>
    obtain ⟨x, y⟩ := p
    obtain ⟨hx, hy⟩ := hb (x, y) (List.mem_cons_self _ _)
    have hrest := ih fun q hq => hb q (List.mem_cons_of_mem _ hq)
    rcases hx with hx | hx <;> rcases hy with hy | hy <;> subst hx <;> subst hy <;>
      simp only [List.map_cons, List.sum_cons, List.countP_cons, hrest] <;>
      norm_num [codeContribution] <;> push_cast <;> ring

lemma list_distance_counts (a b : List Nat)
    (hA : ∀ x ∈ a, x = 0 ∨ x = 1) (hB : ∀ x ∈ b, x = 0 ∨ x = 1) :
    list_distance a b =
      0.4 * (((a.zip b).countP fun p => decide (p.1 = 1) && decide (p.2 = 0)) : ℚ)
        + 0.2 * (((a.zip b).countP fun p => decide (p.1 = 0) && decide (p.2 = 1)) : ℚ)
        - 0.4 * (((a.zip b).countP fun p => decide (p.1 = 1) && decide (p.2 = 1)) : ℚ) := by
  rw [list_distance_eq_sum]
  refine sum_code_eq_counts _ fun p hp => ?_
  have hmem := List.of_mem_zip (a := p.1) (b := p.2) (by simpa using hp)
  exact ⟨hA p.1 hmem.1, hB p.2 hmem.2⟩

lemma countP_zip_swap (a b : List Nat) (f : Nat × Nat → Bool) :
    (b.zip a).countP f = (a.zip b).countP fun p => f p.swap := by
  rw [← List.zip_swap a b, List.countP_map]
  rfl

/-- C4: the distance computation is deterministic and reads only the
two records' indexed vectors and popularity values: records equal on
those fields get equal distances. -/
theorem ComputeDistance_deterministic (a b a' b' : Song)
    (h1 : a.genres_indexed = a'.genres_indexed)
    (h2 : a.artists_indexed = a'.artists_indexed)
    (h3 : a.popularity = a'.popularity)
    (h4 : b.genres_indexed = b'.genres_indexed)
    (h5 : b.artists_indexed = b'.artists_indexed)
    (h6 : b.popularity = b'.popularity) :
    ComputeDistance a b = ComputeDistance a' b' := by
  rw [ComputeDistance, ComputeDistance, h1, h2, h3, h4, h5, h6]

/-- Witness for C4: renaming a song and dropping its text fields does
not change its distances. -/
theorem ComputeDistance_deterministic_witness :
    ComputeDistance demoSong demoSongB = ComputeDistance demoSongRenamed demoSongB :=
  ComputeDistance_deterministic demoSong demoSongB demoSongRenamed demoSongB
    (by decide) (by decide) (by decide) (by decide) (by decide) (by decide)

/-- C6: the mismatch penalty of `list_distance` is asymmetric: some
pair of vectors gets different scores in the two argument orders,
and for equal-length binary vectors the result changes under
swapping whenever the number of 1/0 positions differs from the
number of 0/1 positions. -/
theorem list_distance_asymmetry :
    (∃ a b : List Nat, list_distance a b ≠ list_distance b a) ∧
    (∀ a b : List Nat, (∀ x ∈ a, x = 0 ∨ x = 1) → (∀ x ∈ b, x = 0 ∨ x = 1) →
      (a.zip b).countP (fun p => decide (p.1 = 1) && decide (p.2 = 0)) ≠
        (a.zip b).countP (fun p => decide (p.1 = 0) && decide (p.2 = 1)) →
      list_distance a b ≠ list_distance b a) := by
  constructor
  · exact ⟨[1], [0], by norm_num [list_distance, distFold]⟩
  · intro a b hA hB hcount heq
    have h1 := list_distance_counts a b hA hB
    have h2 := list_distance_counts b a hB hA
    have s1 : (b.zip a).countP (fun p => decide (p.1 = 1) && decide (p.2 = 0)) =
        (a.zip b).countP fun p => decide (p.1 = 0) && decide (p.2 = 1) := by
      rw [countP_zip_swap]
      exact List.countP_congr fun x _ => by simp [Bool.and_comm]
    have s2 : (b.zip a).countP (fun p => decide (p.1 = 0) && decide (p.2 = 1)) =
        (a.zip b).countP fun p => decide (p.1 = 1) && decide (p.2 = 0) := by
      rw [countP_zip_swap]
      exact List.countP_congr fun x _ => by simp [Bool.and_comm]
    have s3 : (b.zip a).countP (fun p => decide (p.1 = 1) && decide (p.2 = 1)) =
        (a.zip b).countP fun p => decide (p.1 = 1) && decide (p.2 = 1) := by
      rw [countP_zip_swap]
      exact List.countP_congr fun x _ => by simp [Bool.and_comm]
    rw [s1, s2, s3] at h2
    refine hcount (Nat.cast_inj (R := ℚ) |>.mp ?_)
    linarith [h1, h2, heq]

/-- Witness for C6 at two concrete vectors with two 1/0 positions
and no 0/1 position. -/
theorem list_distance_asymmetry_witness :
    list_distance [1, 1, 0] [0, 0, 0] ≠ list_distance [0, 0, 0] [1, 1, 0] :=
  list_distance_asymmetry.2 [1, 1, 0] [0, 0, 0] (by decide) (by decide) (by decide)

lemma list_distance_self (v : List Nat) :
    list_distance v v = -(0.4) * ((v.count 1 : Nat) : ℚ) := by
  induction v with
  | nil => simp [list_distance, distFold]
  | cons x rest ih =>
    have hz : (x :: rest).zip (x :: rest) = (x, x) :: rest.zip rest := rfl
    rw [list_distance, hz, distFold_cons, ← list_distance, ih]
    by_cases hx : x = 1
    · subst hx
      rw [List.count_cons_self]
      norm_num [codeContribution]
      push_cast
      ring
    · have h1x : (1 : Nat) ≠ x := fun h => hx h.symm
      rw [List.count_cons_of_ne h1x]
      norm_num [codeContribution, hx]

/-- C9: self-distance is non-positive, not zero: for binary indexed
vectors, `ComputeDistance a a` is minus 0.4 times the number of
1-entries of the genre vector minus 0.16 times the number of
1-entries of the artist vector; it is at most 0, it is 0 exactly
when both vectors are all zeros, and a song whose genre vector holds
a 1 has strictly negative self-distance. -/
theorem ComputeDistance_self_spec (a : Song)
    (hg : ∀ x ∈ a.genres_indexed, x = 0 ∨ x = 1)
    (ha : ∀ x ∈ a.artists_indexed, x = 0 ∨ x = 1) :
    ComputeDistance a a =
      -(0.4) * ((a.genres_indexed.count 1 : Nat) : ℚ)
        - 0.16 * ((a.artists_indexed.count 1 : Nat) : ℚ)
    ∧ ComputeDistance a a ≤ 0
    ∧ (ComputeDistance a a = 0 ↔
        (∀ x ∈ a.genres_indexed, x = 0) ∧ (∀ x ∈ a.artists_indexed, x = 0))
    ∧ (1 ∈ a.genres_indexed → ComputeDistance a a < 0) := by
  have hcg : (0 : ℚ) ≤ ((a.genres_indexed.count 1 : Nat) : ℚ) := Nat.cast_nonneg _
  have hca : (0 : ℚ) ≤ ((a.artists_indexed.count 1 : Nat) : ℚ) := Nat.cast_nonneg _
  have hmain : ComputeDistance a a =
      -(0.4) * ((a.genres_indexed.count 1 : Nat) : ℚ)
        - 0.16 * ((a.artists_indexed.count 1 : Nat) : ℚ) := by
    rw [ComputeDistance, list_distance_self, list_distance_self]
    simp only [sub_self, Int.natAbs_zero, Nat.cast_zero]
    ring
  refine ⟨hmain, ?_, ?_, ?_⟩
  · rw [hmain]; linarith
  · rw [hmain]
    constructor
    · intro h0
      have hg0 : a.genres_indexed.count 1 = 0 := by
        have : ((a.genres_indexed.count 1 : Nat) : ℚ) = 0 := by linarith
        exact_mod_cast this
      have ha0 : a.artists_indexed.count 1 = 0 := by
        have : ((a.artists_indexed.count 1 : Nat) : ℚ) = 0 := by linarith
        exact_mod_cast this
      have hg1 : 1 ∉ a.genres_indexed := List.count_eq_zero.mp hg0
      have ha1 : 1 ∉ a.artists_indexed := List.count_eq_zero.mp ha0
      constructor
      · intro x hx
        rcases hg x hx with h | h
        · exact h
        · exact absurd (h ▸ hx) hg1
      · intro x hx
        rcases ha x hx with h | h
        · exact h
        · exact absurd (h ▸ hx) ha1
    · rintro ⟨h1, h2⟩
      have hg1 : 1 ∉ a.genres_indexed := fun hmem => by simpa using h1 1 hmem
      have ha1 : 1 ∉ a.artists_indexed := fun hmem => by simpa using h2 1 hmem
      rw [List.count_eq_zero.mpr hg1, List.count_eq_zero.mpr ha1]
      norm_num
  · intro hmem
    rw [hmain]
    have hpos : 0 < a.genres_indexed.count 1 := List.count_pos_iff.mpr hmem
    have h1 : (1 : ℚ) ≤ ((a.genres_indexed.count 1 : Nat) : ℚ) := by exact_mod_cast hpos
    linarith

/-- Witness for C9: the concrete song with a 1 in its genre vector
has strictly negative self-distance. -/
theorem ComputeDistance_self_spec_witness : ComputeDistance demoSong demoSong < 0 :=
  (ComputeDistance_self_spec demoSong (by decide) (by decide)).2.2.2 (by decide)

/-! ### The one-hot encoding -/

lemma indexedEntry_binary (w : String) (gs : List String) :
    indexedEntry w gs = 0 ∨ indexedEntry w gs = 1 := by
  induction gs with
  | nil => exact Or.inl rfl
  | cons g rest ih =>
    by_cases h : w = g
    · right; simp [indexedEntry, h]
    · simpa [indexedEntry, h] using ih

lemma indexedEntry_eq_one_iff (w : String) (gs : List String) :
    indexedEntry w gs = 1 ↔ w ∈ gs := by
  induction gs with
  | nil => simp [indexedEntry]
  | cons g rest ih =>
    by_cases h : w = g
    · simp [indexedEntry, h]
    · simp [indexedEntry, h, ih]

/-- C3: each indexed vector has the length of its global vocabulary,
every entry is 0 or 1, and the i-th entry is 1 exactly when the i-th
vocabulary word occurs in the song's list; hence all songs' indexed
vectors share the vocabulary's fixed length. -/
theorem indexed_vectors_spec (all_genres all_artists genres artists : List String) :
    (genres_indexed all_genres genres).length = all_genres.length
    ∧ (∀ x ∈ genres_indexed all_genres genres, x = 0 ∨ x = 1)
    ∧ (∀ i, i < all_genres.length →
        ((genres_indexed all_genres genres).getD i 0 = 1 ↔ all_genres.getD i "" ∈ genres))
    ∧ (artists_indexed all_artists artists).length = all_artists.length
    ∧ (∀ x ∈ artists_indexed all_artists artists, x = 0 ∨ x = 1)
    ∧ (∀ i, i < all_artists.length →
        ((artists_indexed all_artists artists).getD i 0 = 1 ↔ all_artists.getD i "" ∈ artists)) := by
  refine ⟨by simp [genres_indexed], ?_, ?_, by simp [artists_indexed], ?_, ?_⟩
  · intro x hx
    rw [genres_indexed, List.mem_map] at hx
    obtain ⟨w, _, rfl⟩ := hx
    exact indexedEntry_binary w genres
  · intro i hi
    obtain ⟨w, hw⟩ : ∃ w, all_genres.get? i = some w := by
      rw [List.get?_eq_get hi]
      exact ⟨_, rfl⟩
    rw [List.getD_eq_getD_get?, List.getD_eq_getD_get?, genres_indexed, List.get?_map, hw]
    simp [indexedEntry_eq_one_iff]
  · intro x hx
    rw [artists_indexed, List.mem_map] at hx
    obtain ⟨w, _, rfl⟩ := hx
    exact indexedEntry_binary w artists
  · intro i hi
    obtain ⟨w, hw⟩ : ∃ w, all_artists.get? i = some w := by
      rw [List.get?_eq_get hi]
      exact ⟨_, rfl⟩
    rw [List.getD_eq_getD_get?, List.getD_eq_getD_get?, artists_indexed, List.get?_map, hw]
    simp [indexedEntry_eq_one_iff]

/-- Witness for C3: in the vocabulary `[rock, pop]`, a song with
genre list `[pop]` gets entry 1 at position 1. -/
theorem indexed_vectors_spec_witness :
    (genres_indexed ["rock", "pop"] ["pop"]).getD 1 0 = 1 :=
  ((indexed_vectors_spec ["rock", "pop"] [] ["pop"] []).2.2.1 1 (by decide)).mpr (by decide)

/-! ### Vocabulary building with add_genres -/

lemma add_genres_eq_append (gs : List String) : ∀ l, add_genres l gs = l ++ newGenres l gs := by
  induction gs with
  | nil => intro l; simp [add_genres, newGenres]
  | cons g rest ih =>
    intro l
    by_cases h : g ∈ l
    · rw [add_genres, if_pos h, newGenres, if_pos h, ih]
    · rw [add_genres, if_neg h, newGenres, if_neg h, ih]
      simp

lemma mem_add_genres (gs : List String) :
    ∀ l x, x ∈ add_genres l gs ↔ x ∈ l ∨ x ∈ gs := by
  induction gs with
  | nil => simp [add_genres]
  | cons g rest ih =>
    intro l x
    by_cases h : g ∈ l
    · rw [add_genres, if_pos h, ih]
      constructor
      · rintro (hx | hx)
        · exact Or.inl hx
        · exact Or.inr (List.mem_cons_of_mem _ hx)
      · rintro (hx | hx)
        · exact Or.inl hx
        · rcases List.mem_cons.mp hx with rfl | hx
          · exact Or.inl h
          · exact Or.inr hx
    · rw [add_genres, if_neg h, ih]
      simp [List.mem_append, List.mem_cons, or_assoc]

lemma nodup_add_genres (gs : List String) :
    ∀ l, l.Nodup → (add_genres l gs).Nodup := by
  induction gs with
  | nil => intro l h; exact h
  | cons g rest ih =>
    intro l h
    by_cases hg : g ∈ l
    · rw [add_genres, if_pos hg]
      exact ih l h
    · rw [add_genres, if_neg hg]
      refine ih _ ?_
      rw [List.nodup_append]
      exact ⟨h, List.nodup_singleton g, by simpa [List.disjoint_singleton] using hg⟩

lemma newGenres_sublist (gs : List String) : ∀ l, (newGenres l gs).Sublist gs := by
  induction gs with
  | nil => intro l; simp [newGenres]
  | cons g rest ih =>
    intro l
    by_cases h : g ∈ l
    · rw [newGenres, if_pos h]
      exact (ih l).trans (List.sublist_cons_self g rest)
    · rw [newGenres, if_neg h]
      exact (ih (l ++ [g])).cons₂ g

lemma mem_newGenres (gs : List String) :
    ∀ l x, x ∈ newGenres l gs ↔ x ∈ gs ∧ x ∉ l := by
  induction gs with
  | nil => simp [newGenres]
  | cons g rest ih =>
    intro l x
    by_cases h : g ∈ l
    · rw [newGenres, if_pos h, ih]
      constructor
      · rintro ⟨hx, hnl⟩
        exact ⟨List.mem_cons_of_mem _ hx, hnl⟩
      · rintro ⟨hx, hnl⟩
        rcases List.mem_cons.mp hx with rfl | hx
        · exact absurd h hnl
        · exact ⟨hx, hnl⟩
    · rw [newGenres, if_neg h]
      constructor
      · intro hx
        rcases List.mem_cons.mp hx with rfl | hx
        · exact ⟨List.mem_cons_self _ _, h⟩
        · obtain ⟨hr, hnl⟩ := (ih (l ++ [g]) x).mp hx
          exact ⟨List.mem_cons_of_mem _ hr,
            fun hl => hnl (List.mem_append.mpr (Or.inl hl))⟩
      · rintro ⟨hx, hnl⟩
        by_cases hxg : x = g
        · exact hxg ▸ List.mem_cons_self _ _
        · rcases List.mem_cons.mp hx with rfl | hx
          · exact absurd rfl hxg
          · refine List.mem_cons_of_mem _ ((ih (l ++ [g]) x).mpr ⟨hx, fun hm => ?_⟩)
            rcases List.mem_append.mp hm with hl | hg1
            · exact hnl hl
            · exact hxg (by simpa using hg1)

lemma foldl_add_genres_nodup (gss : List (List String)) :
    ∀ init : List String, init.Nodup → (gss.foldl add_genres init).Nodup := by
  induction gss with
  | nil => intro init h; exact h
  | cons gs rest ih =>
    intro init h
    exact ih _ (nodup_add_genres gs init h)

lemma mem_foldl_add_genres (gss : List (List String)) :
    ∀ (init : List String) (x : String),
      x ∈ gss.foldl add_genres init ↔ x ∈ init ∨ ∃ gs ∈ gss, x ∈ gs := by
  induction gss with
  | nil => simp
  | cons gs rest ih =>
    intro init x
    rw [List.foldl_cons, ih, mem_add_genres]
    simp [or_assoc]

/-- C7: `add_genres(list, genres)` returns `list` extended, in order
of first appearance, with exactly the elements of `genres` not
already present; it preserves the no-duplicates invariant, so every
element of either argument occurs exactly once in the result, and
the vocabulary folded up with `add_genres` holds each observed genre
exactly once. -/
theorem add_genres_spec :
    (∀ l gs : List String, add_genres l gs = l ++ newGenres l gs)
    ∧ (∀ l gs : List String, (newGenres l gs).Sublist gs)
    ∧ (∀ (l gs : List String) (x : String), x ∈ newGenres l gs ↔ x ∈ gs ∧ x ∉ l)
    ∧ (∀ (l gs : List String) (x : String), x ∈ add_genres l gs ↔ x ∈ l ∨ x ∈ gs)
    ∧ (∀ l gs : List String, l.Nodup → (add_genres l gs).Nodup)
    ∧ (∀ (l gs : List String) (x : String), l.Nodup → x ∈ l ∨ x ∈ gs →
        (add_genres l gs).count x = 1)
    ∧ (∀ gss : List (List String),
        (gss.foldl add_genres []).Nodup
        ∧ (∀ x, x ∈ gss.foldl add_genres [] ↔ ∃ gs ∈ gss, x ∈ gs)
        ∧ (∀ x, (∃ gs ∈ gss, x ∈ gs) → (gss.foldl add_genres []).count x = 1)) := by
  have hmem := fun l gs x => mem_add_genres gs l x
  have hnodup := fun l gs h => nodup_add_genres gs l h
  refine ⟨fun l gs => add_genres_eq_append gs l,
    fun l gs => newGenres_sublist gs l,
    fun l gs x => mem_newGenres gs l x,
    hmem, hnodup, ?_, ?_⟩
  · intro l gs x h hx
    exact List.count_eq_one_of_mem (hnodup l gs h) ((hmem l gs x).mpr hx)
  · intro gss
    have hn := foldl_add_genres_nodup gss [] List.nodup_nil
    have hm : ∀ x, x ∈ gss.foldl add_genres [] ↔ ∃ gs ∈ gss, x ∈ gs := fun x => by
      rw [mem_foldl_add_genres gss [] x]
      simp
    refine ⟨hn, hm, fun x hx => List.count_eq_one_of_mem hn ((hm x).mpr hx)⟩

/-- Witness for C7: a concrete duplicate-free base list extended by a
genre list with repetitions holds the new genre exactly once. -/
theorem add_genres_spec_witness :
    (add_genres ["a"] ["b", "a", "c", "b"]).count "b" = 1 :=
  add_genres_spec.2.2.2.2.2.1 ["a"] ["b", "a", "c", "b"] "b" (by decide) (by decide)

/-! ### HTTP handling in get_song_genres

The loading loop issues each artist request once and never inspects
the status code: there is no retry and no backoff in this script. A
rate-limited response only has its parse failure caught the same way
as any malformed body.
-/

/-- Counterexample to C5: on a run where artist `a0` answers normally
and artist `a1` answers with a 429 rate-limit body, the run finishes,
the 429 request `a1` appears exactly once in the request log (it is
never re-issued), yet its response carried status 429. -/
theorem no_backoff_counterexample :
    (mixedNet "a1").status = 429
    ∧ (get_song_genres mixedNet twoArtists []).2.count "a1" = 1
    ∧ ¬2 ≤ (get_song_genres mixedNet twoArtists []).2.count "a1" := by
  refine ⟨rfl, rfl, ?_⟩
  intro h
  have : (get_song_genres mixedNet twoArtists []).2.count "a1" = 1 := rfl
  omega

lemma get_song_genres_loop_status_blind (net1 net2 : String → ArtistResponse)
    (hsame : ∀ s, (net1 s).genres = (net2 s).genres) :
    ∀ (song_artists : List ArtistRef) (genres : List String)
      (artistsDict : List (String × List String)) (artist_genres : Option (List String))
      (log : List String),
      get_song_genres_loop net1 song_artists genres artistsDict artist_genres log =
        get_song_genres_loop net2 song_artists genres artistsDict artist_genres log := by
  intro song_artists
  induction song_artists with
  | nil => intro genres artistsDict artist_genres log; rfl
  | cons artist rest ih =>
    intro genres artistsDict artist_genres log
    simp only [get_song_genres_loop]
    cases hc : lookupDict artistsDict artist.id with
    | some cached => exact ih _ _ _ _
    | none =>
      rw [hsame artist.id]
      cases hg : (net2 artist.id).genres with
      | some g => exact ih _ _ _ _
      | none =>
        cases artist_genres with
        | some stale => exact ih _ _ _ _
        | none => rfl

lemma get_song_genres_loop_log_growth (network : String → ArtistResponse) :
    ∀ (song_artists : List ArtistRef) (genres : List String)
      (artistsDict : List (String × List String)) (artist_genres : Option (List String))
      (log : List String),
      (get_song_genres_loop network song_artists genres artistsDict artist_genres log).2.length
        ≤ log.length + song_artists.length := by
  intro song_artists
  induction song_artists with
  | nil => intro genres artistsDict artist_genres log; simp [get_song_genres_loop]
  | cons artist rest ih =>
    intro genres artistsDict artist_genres log
    simp only [get_song_genres_loop]
    cases hc : lookupDict artistsDict artist.id with
    | some cached =>
      calc (get_song_genres_loop network rest (add_genres genres cached)
              artistsDict artist_genres log).2.length
          ≤ log.length + rest.length := ih _ _ _ _
        _ ≤ log.length + (artist :: rest).length := by simp only [List.length_cons, List.length_append, List.length_nil]; omega
    | none =>
      cases hg : (network artist.id).genres with
      | some g =>
        calc (get_song_genres_loop network rest (add_genres genres g)
                (dictInsert artistsDict artist.name g) (some g) (log ++ [artist.id])).2.length
            ≤ (log ++ [artist.id]).length + rest.length := ih _ _ _ _
          _ ≤ log.length + (artist :: rest).length := by simp only [List.length_cons, List.length_append, List.length_nil]; omega
      | none =>
        cases artist_genres with
        | some stale =>
          calc (get_song_genres_loop network rest (add_genres genres stale)
                  (dictInsert artistsDict artist.name stale) (some stale)
                  (log ++ [artist.id])).2.length
              ≤ (log ++ [artist.id]).length + rest.length := ih _ _ _ _
            _ ≤ log.length + (artist :: rest).length := by simp only [List.length_cons, List.length_append, List.length_nil]; omega
        | none => simp only [List.length_cons, List.length_append, List.length_nil]; omega

/-- C5 amended: the playlist-loading loop performs no retry and no
backoff at all. It never inspects the status code — two networks
whose responses parse the same way produce identical runs, whatever
their statuses — and a run issues at most one request per artist
occurrence, so a 429 response is consumed, never re-issued. -/
theorem no_backoff_amended (net1 net2 : String → ArtistResponse)
    (hsame : ∀ s, (net1 s).genres = (net2 s).genres)
    (song_artists : List ArtistRef) (artistsDict : List (String × List String)) :
    get_song_genres net1 song_artists artistsDict =
      get_song_genres net2 song_artists artistsDict
    ∧ (get_song_genres net1 song_artists artistsDict).2.length ≤ song_artists.length := by
  constructor
  · exact get_song_genres_loop_status_blind net1 net2 hsame song_artists [] artistsDict none []
  · have := get_song_genres_loop_log_growth net1 song_artists [] artistsDict none []
    simpa using this

/-- Witness for the amended C5: a run against the all-429 network is
identical to the run against the healthy network with the same
bodies, and issues one request for its one artist. -/
theorem no_backoff_amended_witness :
    get_song_genres rateLimitedNet oneArtist [] = get_song_genres okStatusNet oneArtist []
    ∧ (get_song_genres rateLimitedNet oneArtist []).2.length ≤ oneArtist.length :=
  no_backoff_amended rateLimitedNet okStatusNet (fun _ => rfl) oneArtist []

/-- Counterexample to C8: with a single artist whose response body
cannot be parsed for `genres`, the caught parse failure leads
straight to a `NameError` on the never-assigned `artist_genres`
local, aborting the call instead of continuing. -/
theorem malformed_aborts_counterexample :
    (rateLimitedNet "a1").genres = none
    ∧ (get_song_genres rateLimitedNet oneArtist []).1 = Except.error PyError.nameError :=
  ⟨rfl, rfl⟩

/-- C8 amended: the parse exception itself is caught (the body is
printed) and the loop proceeds to reuse the `artist_genres` local:
when no earlier artist of the same call has parsed successfully the
reuse raises an uncaught `NameError` that aborts the call; when some
earlier artist succeeded, that stale genre list is consumed and
processing of the remaining artists continues. -/
theorem malformed_response_amended (network : String → ArtistResponse)
    (artist : ArtistRef) (rest : List ArtistRef)
    (artistsDict : List (String × List String))
    (hmiss : lookupDict artistsDict artist.id = none)
    (hbad : (network artist.id).genres = none) :
    get_song_genres network (artist :: rest) artistsDict =
      (Except.error PyError.nameError, [artist.id])
    ∧ (∀ (genres stale : List String) (artist_genres_prev : List String) (log : List String),
        artist_genres_prev = stale →
        get_song_genres_loop network (artist :: rest) genres artistsDict (some stale) log =
          get_song_genres_loop network rest (add_genres genres stale)
            (dictInsert artistsDict artist.name stale) (some stale) (log ++ [artist.id])) := by
  constructor
  · rw [get_song_genres, get_song_genres_loop, hmiss, hbad]
    rfl
  · intro genres stale artist_genres_prev log _
    rw [get_song_genres_loop, hmiss, hbad]

/-- Witness for the amended C8 at the all-429 network: the one-artist
call aborts with `NameError`, and with a previously assigned
`artist_genres` the same request continues into the tail call. -/
theorem malformed_response_amended_witness :
    get_song_genres rateLimitedNet oneArtist [] =
      (Except.error PyError.nameError, ["a1"])
    ∧ get_song_genres_loop rateLimitedNet oneArtist [] [] (some ["rock"]) [] =
      get_song_genres_loop rateLimitedNet [] (add_genres [] ["rock"])
        (dictInsert [] "A1" ["rock"]) (some ["rock"]) ([] ++ ["a1"]) := by
  have h := malformed_response_amended rateLimitedNet ⟨"a1", "A1"⟩ [] [] rfl rfl
  exact ⟨h.1, h.2 [] ["rock"] ["rock"] [] rfl⟩

/-! ### The neighbour search -/

lemma insertSorted_perm : ∀ (l : List (Nat × ℚ)) (x : Nat × ℚ),
    List.Perm (insertSorted l x) (x :: l) := by
  intro l
  induction l with
  | nil => intro x; exact List.Perm.refl _
  | cons y rest ih =>
    intro x
    simp only [insertSorted]
    by_cases h : y.2 ≤ x.2
    · rw [if_pos h]
      exact ((ih x).cons y).trans (List.Perm.swap x y rest)
    · rw [if_neg h]

lemma insertSorted_sorted : ∀ (l : List (Nat × ℚ)) (x : Nat × ℚ),
    List.Pairwise (fun p q : Nat × ℚ => p.2 ≤ q.2) l →
    List.Pairwise (fun p q : Nat × ℚ => p.2 ≤ q.2) (insertSorted l x) := by
  intro l
  induction l with
  | nil => intro x _; simp [insertSorted]
  | cons y rest ih =>
    intro x hsorted
    rw [List.pairwise_cons] at hsorted
    obtain ⟨hy, hrest⟩ := hsorted
    simp only [insertSorted]
    by_cases h : y.2 ≤ x.2
    · rw [if_pos h, List.pairwise_cons]
      refine ⟨?_, ih x hrest⟩
      intro z hz
      rcases List.mem_cons.mp ((insertSorted_perm rest x).mem_iff.mp hz) with rfl | hz'
      · exact h
      · exact hy z hz'
    · rw [if_neg h]
      have hxy : x.2 ≤ y.2 := le_of_not_le h
      rw [List.pairwise_cons]
      refine ⟨?_, ?_⟩
      · intro z hz
        rcases List.mem_cons.mp hz with rfl | hz'
        · exact hxy
        · exact hxy.trans (hy z hz')
      · rw [List.pairwise_cons]
        exact ⟨hy, hrest⟩

lemma sortByDist_perm (l : List (Nat × ℚ)) : List.Perm (sortByDist l) l := by
  have h : ∀ (l acc : List (Nat × ℚ)),
      List.Perm (List.foldl insertSorted acc l) (acc ++ l) := by
    intro l
    induction l with
    | nil => intro acc; simp
    | cons x rest ih =>
      intro acc
      have h1 := ih (insertSorted acc x)
      have h2 : List.Perm (insertSorted acc x ++ rest) ((x :: acc) ++ rest) :=
        (insertSorted_perm acc x).append_right rest
      have h3 : List.Perm ((x :: acc) ++ rest) (acc ++ x :: rest) :=
        List.perm_middle.symm
      exact (h1.trans h2).trans h3
  simpa [sortByDist] using h l []

lemma sortByDist_sorted (l : List (Nat × ℚ)) :
    List.Pairwise (fun p q : Nat × ℚ => p.2 ≤ q.2) (sortByDist l) := by
  have h : ∀ (l acc : List (Nat × ℚ)),
      List.Pairwise (fun p q : Nat × ℚ => p.2 ≤ q.2) acc →
      List.Pairwise (fun p q : Nat × ℚ => p.2 ≤ q.2) (List.foldl insertSorted acc l) := by
    intro l
    induction l with
    | nil => intro acc hacc; exact hacc
    | cons x rest ih =>
      intro acc hacc
      exact ih _ (insertSorted_sorted acc x hacc)
  exact h l [] List.Pairwise.nil

lemma takeIndexed_of_le (l : List (Nat × ℚ)) : ∀ K, K ≤ l.length →
    takeIndexed l K = some (l.take K) := by
  intro K
  induction K with
  | zero => intro _; simp [takeIndexed]
  | succ K ih =>
    intro h
    rw [takeIndexed, ih (Nat.le_of_succ_le h)]
    have hK : K < l.length := h
    obtain ⟨v, hv⟩ : ∃ v, l.get? K = some v := ⟨_, List.get?_eq_get hK⟩
    rw [hv, List.take_succ]
    have hv' : l[K]? = some v := by rw [← List.get?_eq_getElem?]; exact hv
    rw [hv']
    rfl

lemma takeIndexed_of_gt (l : List (Nat × ℚ)) : ∀ K, l.length < K →
    takeIndexed l K = none := by
  intro K
  induction K with
  | zero => intro h; exact absurd h (by omega)
  | succ K ih =>
    intro h
    rw [takeIndexed]
    by_cases hK : l.length < K
    · rw [ih hK]
    · rw [takeIndexed_of_le l K (by omega)]
      have hnone : l.get? K = none := List.get?_eq_none.mpr (by omega)
      rw [hnone]

lemma pairDistances_length_of_lt (base : Song) (song : Nat) :
    ∀ (l : List Song) (i : Nat), song < i →
      (pairDistances base song i l).length = l.length := by
  intro l
  induction l with
  | nil => intro i _; rfl
  | cons v rest ih =>
    intro i h
    have hne : i ≠ song := by omega
    simp only [pairDistances, if_pos hne, List.length_cons]
    rw [ih (i + 1) (by omega)]

lemma pairDistances_length_of_mem (base : Song) (song : Nat) :
    ∀ (l : List Song) (i : Nat), i ≤ song → song < i + l.length →
      (pairDistances base song i l).length = l.length - 1 := by
  intro l
  induction l with
  | nil => intro i _ _; rfl
  | cons v rest ih =>
    intro i h1 h2
    by_cases hne : i = song
    · subst hne
      simp only [pairDistances, if_neg (fun h : i ≠ i => h rfl)]
      rw [pairDistances_length_of_lt base i rest (i + 1) (by omega)]
      simp [List.length_cons]
    · have hne' : i ≠ song := hne
      simp only [pairDistances, if_pos hne', List.length_cons]
      have h3 := ih (i + 1) (by omega) (by simp only [List.length_cons] at h2; omega)
      rw [h3]
      have : 1 ≤ rest.length := by simp only [List.length_cons] at h2; omega
      omega

lemma pairDistances_mem (base : Song) (song : Nat) :
    ∀ (l : List Song) (i : Nat) (p : Nat × ℚ), p ∈ pairDistances base song i l →
      p.1 ≠ song ∧ i ≤ p.1 ∧ p.1 < i + l.length := by
  intro l
  induction l with
  | nil => intro i p hp; simp [pairDistances] at hp
  | cons v rest ih =>
    intro i p hp
    simp only [pairDistances] at hp
    by_cases hne : i ≠ song
    · rw [if_pos hne] at hp
      rcases List.mem_cons.mp hp with rfl | hp'
      · exact ⟨hne, le_refl _, by simp only [List.length_cons]; omega⟩
      · obtain ⟨h1, h2, h3⟩ := ih (i + 1) p hp'
        exact ⟨h1, by omega, by simp only [List.length_cons]; omega⟩
    · rw [if_neg hne] at hp
      obtain ⟨h1, h2, h3⟩ := ih (i + 1) p hp
      exact ⟨h1, by omega, by simp only [List.length_cons]; omega⟩

lemma pairDistances_mem_of_index (base : Song) (song : Nat) :
    ∀ (l : List Song) (i j : Nat), i ≤ j → j - i < l.length → j ≠ song →
      ∃ v, l.get? (j - i) = some v ∧
        (j, ComputeDistance base v) ∈ pairDistances base song i l := by
  intro l
  induction l with
  | nil => intro i j _ hj _; simp at hj
  | cons v rest ih =>
    intro i j hij hj hne
    rcases Nat.eq_or_lt_of_le hij with rfl | hlt
    · refine ⟨v, ?_, ?_⟩
      · rw [Nat.sub_self]
        rfl
      · simp only [pairDistances, if_pos hne]
        exact List.mem_cons_self _ _
    · obtain ⟨w, hw, hmem⟩ :=
        ih (i + 1) j (by omega) (by simp only [List.length_cons] at hj; omega) hne
      refine ⟨w, ?_, ?_⟩
      · have hji : j - i = (j - (i + 1)) + 1 := by omega
        rw [hji, List.get?_cons_succ]
        exact hw
      · simp only [pairDistances]
        by_cases hi : i ≠ song
        · rw [if_pos hi]
          exact List.mem_cons_of_mem _ hmem
        · rw [if_neg hi]
          exact hmem

lemma distLoop_eq_pairDistances (dict : List Song) (song : Nat) (base : Song)
    (hbase : dict.get? song = some base) :
    ∀ (l : List Song) (i : Nat),
      distLoop dict song i l = some (pairDistances base song i l) := by
  intro l
  induction l with
  | nil => intro i; rfl
  | cons v rest ih =>
    intro i
    simp only [distLoop, pairDistances]
    by_cases hne : i ≠ song
    · rw [if_pos hne, if_pos hne, hbase, ih (i + 1)]
      rfl
    · rw [if_neg hne, if_neg hne]
      exact ih (i + 1)

/-- C2: for a valid base index `s` and `1 ≤ K ≤ n - 1`,
`getNeighbors(s, K)` computes the distance to each of the `n - 1`
other songs, succeeds, and returns `K` pairs, none with index `s`,
with non-decreasing distances that are `K` smallest among the
computed ones. -/
theorem getNeighbors_spec (dict : List Song) (s K : Nat) (hs : s < dict.length)
    (hK1 : 1 ≤ K) (hK : K ≤ dict.length - 1) : NeighborsSpec dict s K := by
  obtain ⟨base, hbase⟩ : ∃ base, dict.get? s = some base := ⟨_, List.get?_eq_get hs⟩
  have hlen : (pairDistances base s 0 dict).length = dict.length - 1 :=
    pairDistances_length_of_mem base s dict 0 (Nat.zero_le s) (by omega)
  have hperm : List.Perm (sortByDist (pairDistances base s 0 dict))
      (pairDistances base s 0 dict) := sortByDist_perm _
  have hslen : (sortByDist (pairDistances base s 0 dict)).length = dict.length - 1 :=
    hperm.length_eq.trans hlen
  have hKle : K ≤ (sortByDist (pairDistances base s 0 dict)).length := by omega
  have hgn : getNeighbors dict s K =
      some ((sortByDist (pairDistances base s 0 dict)).take K) := by
    rw [getNeighbors, distLoop_eq_pairDistances dict s base hbase dict 0]
    exact takeIndexed_of_le _ K hKle
  refine ⟨base, _, hbase, hgn, ?_, ?_, ?_, hlen, ?_, ?_⟩
  · rw [List.length_take]
    omega
  · intro p hp
    have hmem : p ∈ pairDistances base s 0 dict :=
      hperm.mem_iff.mp (List.mem_of_mem_take hp)
    obtain ⟨h1, _, h3⟩ := pairDistances_mem base s dict 0 p hmem
    exact ⟨h1, by omega⟩
  · exact (sortByDist_sorted _).sublist (List.take_sublist K _)
  · intro j hj hne
    have h := pairDistances_mem_of_index base s dict 0 j (Nat.zero_le j)
      (by omega) hne
    simpa using h
  · refine ⟨(sortByDist (pairDistances base s 0 dict)).drop K, ?_, ?_⟩
    · rw [List.take_append_drop]
      exact hperm
    · intro p hp q hq
      have hpair := sortByDist_sorted (pairDistances base s 0 dict)
      rw [← List.take_append_drop K (sortByDist (pairDistances base s 0 dict)),
        List.pairwise_append] at hpair
      exact hpair.2.2 p hp q hq

/-- Witness for C2 on the three-song dictionary with base index 0 and
`K = 2`. -/
theorem getNeighbors_spec_witness : NeighborsSpec demoDict 0 2 :=
  getNeighbors_spec demoDict 0 2 (by decide) (by decide) (by decide)

/-- C10: `getNeighbors(s, K)` collects exactly `n - 1` distance pairs
and then indexes the sorted list `K` times, so any `K > n - 1`
reaches the out-of-range branch, and the script's fixed `K = 51`
succeeds only when the dictionary holds at least 52 songs. -/
theorem getNeighbors_out_of_range (dict : List Song) (s K : Nat) (hs : s < dict.length) :
    (dict.length - 1 < K → getNeighbors dict s K = none)
    ∧ (∀ res, getNeighbors dict s 51 = some res → 52 ≤ dict.length) := by
  obtain ⟨base, hbase⟩ : ∃ base, dict.get? s = some base := ⟨_, List.get?_eq_get hs⟩
  have hlen : (pairDistances base s 0 dict).length = dict.length - 1 :=
    pairDistances_length_of_mem base s dict 0 (Nat.zero_le s) (by omega)
  have hslen : (sortByDist (pairDistances base s 0 dict)).length = dict.length - 1 :=
    (sortByDist_perm _).length_eq.trans hlen
  have hgn : ∀ K', getNeighbors dict s K' =
      takeIndexed (sortByDist (pairDistances base s 0 dict)) K' := by
    intro K'
    rw [getNeighbors, distLoop_eq_pairDistances dict s base hbase dict 0]
  constructor
  · intro hKgt
    rw [hgn K]
    exact takeIndexed_of_gt _ K (by omega)
  · intro res hres
    by_contra hlt
    push_neg at hlt
    rw [hgn 51, takeIndexed_of_gt _ 51 (by omega)] at hres
    exact Option.noConfusion hres

/-- Witness for C10: on the three-song dictionary, asking for 5
neighbours fails. -/
theorem getNeighbors_out_of_range_witness : getNeighbors demoDict 0 5 = none :=
  (getNeighbors_out_of_range demoDict 0 5 (by decide)).1 (by decide)

end SpotifyKNN
